import Mathlib

/-!
Verification of the hexya (YEP) security layer and of the `yep-generate`
command-line helpers.

The repository ships the security documentation (`doc/security.adoc`) and the
generator `cmd/yep-generate/main.go`.  The security implementation itself
(groups, access-control lists, record rules) is described by the documentation
and the design specification; those components are embedded here from the
spec's words, each such definition carrying a `Modelled from the spec:` note.
The generator helpers `getMissingDeclarations` and `filterDefsModules` are
embedded directly from the Go source.
-/

namespace security

/-- The four permission bits of the `security` package:
`Create = 1 << iota`, so `Create = 1`, `Read = 2`, `Write = 4`, `Unlink = 8`. -/
def Create : Nat := 1

/-- Read permission bit. -/
def Read : Nat := 2

/-- Write permission bit. -/
def Write : Nat := 4

/-- Unlink (delete) permission bit. -/
def Unlink : Nat := 8

/-- `All = Create | Read | Write | Unlink`. -/
def All : Nat := 15

/-- The three permissions applicable to fields: `Create | Read | Write`. -/
def CRW : Nat := 7

/-- Modelled from the spec: the distinguished administrator group
(`AdminGroup` of the groups registry). -/
def AdminGroupName : String := "admin"

end security

/-- Modelled from the spec: the group inheritance graph of the Group Registry,
an adjacency structure keyed by group name; each group carries the list of its
parent group names. -/
abbrev GroupGraph := List (String × List String)

/-- Parent names of a group in the graph (empty when the name is unknown). -/
def parentsOf (g : GroupGraph) (n : String) : List String :=
  match g.find? (fun q => q.1 = n) with
  | some q => q.2
  | none => []

/-- Fuel-bounded reachability along parent edges: `reachesFuel g fuel a b`
holds when `b` can be reached from `a` in at most `fuel` parent steps
(zero steps included, so `a = b` always reaches). -/
def reachesFuel (g : GroupGraph) : Nat → String → String → Bool
  | 0, a, b => a = b
  | fuel + 1, a, b => a = b || (parentsOf g a).any (fun p => reachesFuel g fuel p b)

/-- Reachability along parent chains; fuel one beyond the graph size bounds
every simple path. -/
def reaches (g : GroupGraph) (a b : String) : Bool :=
  reachesFuel g (g.length + 1) a b

/-- Modelled from the spec: errors of the Group Registry registration call. -/
inductive RegError where
  | duplicateGroup
  | cycleGroup
deriving DecidableEq

/-- Modelled from the spec: `register(name, parents)` of the Group Registry.
Fails with `DuplicateGroupError` if the name exists; fails with `CycleError`
if any parent chain would reach the new group; otherwise appends the group. -/
def registerGroup (g : GroupGraph) (name : String) (parents : List String) :
    Except RegError GroupGraph :=
  if g.any (fun q => q.1 = name) then .error .duplicateGroup
  else if parents.any (fun p => reaches g p name) then .error .cycleGroup
  else .ok (g ++ [(name, parents)])

/-- The graph the registry holds after a registration attempt: unchanged when
the registration call fails. -/
def registerGroupStep (g : GroupGraph) (name : String) (parents : List String) :
    GroupGraph :=
  match registerGroup g name parents with
  | .ok g2 => g2
  | .error _ => g

/-- Polarity of an access-control entry: `AllowModelAccess`-style grants
versus `DenyModelAccess`-style denials. -/
inductive AclKind where
  | allow
  | deny
deriving DecidableEq

/-- Modelled from the spec: one access-control entry of the Access Control
Table: a group name, permission bits, and a polarity.  Entries of one target
are kept in insertion order. -/
structure AclEntry where
  group : String
  perm : Nat
  kind : AclKind
deriving DecidableEq

/-- Modelled from the spec: replay of one entry over the running permission:
entries whose group is among the actor's (already resolved) effective groups
apply `res |= perm` (allow) or `res &= ~perm` (deny, complement taken inside
`All` as permissions are subsets of `All`); other entries leave `res`. -/
def applyEntry (actorGroups : List String) (res : Nat) (e : AclEntry) : Nat :=
  if e.group ∈ actorGroups then
    match e.kind with
    | .allow => res ||| e.perm
    | .deny => res &&& (security.All ^^^ e.perm)
  else res

/-- Modelled from the spec: the initial permission of the scan: `All` for an
actor holding the administrator group when the target has no entries at all,
and the empty permission set otherwise. -/
def initPerm (actorGroups : List String) (entries : List AclEntry) : Nat :=
  if entries.isEmpty ∧ security.AdminGroupName ∈ actorGroups then security.All
  else 0

/-- The scan loop of `effectivePermission`: replay the entries in insertion
order over the accumulator. -/
def scanEntries (actorGroups : List String) : Nat → List AclEntry → Nat
  | res, [] => res
  | res, e :: es => scanEntries actorGroups (applyEntry actorGroups res e) es

/-- Modelled from the spec: `effectivePermission(actorGroups, target)`:
initialize per the administrator default and scan the target's entry list in
insertion order.  `actorGroups` is the actor's already-resolved effective
group set (the facade resolves groups once). -/
def effectivePermission (actorGroups : List String) (entries : List AclEntry) : Nat :=
  scanEntries actorGroups (initPerm actorGroups entries) entries

/-- Modelled from the spec: `AllowModelAccess` appends an allow entry to the
target's ordered list. -/
def AllowModelAccess (entries : List AclEntry) (group : String) (perm : Nat) :
    List AclEntry :=
  entries ++ [⟨group, perm, .allow⟩]

/-- Modelled from the spec: `DenyModelAccess` appends a deny entry to the
target's ordered list. -/
def DenyModelAccess (entries : List AclEntry) (group : String) (perm : Nat) :
    List AclEntry :=
  entries ++ [⟨group, perm, .deny⟩]

/-- Modelled from the spec: `AllowFieldAccess` appends an allow entry to the
field's ordered list. -/
def AllowFieldAccess (entries : List AclEntry) (group : String) (perm : Nat) :
    List AclEntry :=
  entries ++ [⟨group, perm, .allow⟩]

/-- Modelled from the spec: field permission derivation: a field with no
field-specific entries mirrors its model's permission intersected with
`{Create, Read, Write}`; once any field-specific entry exists, only the
field's entries determine the result (replayed from the empty set upward). -/
def fieldPermission (actorGroups : List String)
    (modelEntries fieldEntries : List AclEntry) : Nat :=
  if fieldEntries.isEmpty then
    effectivePermission actorGroups modelEntries &&& security.CRW
  else effectivePermission actorGroups fieldEntries

/-- Modelled from the spec: `mayAccess(actor, model, operation, field?)`:
check the requested operation bit against the model permission, or against
the field permission when a field is given — except that `Unlink` never
consults field-level permissions. -/
def mayAccess (actorGroups : List String) (modelEntries : List AclEntry)
    (fieldEntries : Option (List AclEntry)) (op : Nat) : Bool :=
  match fieldEntries with
  | none => effectivePermission actorGroups modelEntries &&& op == op
  | some fe =>
    if op == security.Unlink then
      effectivePermission actorGroups modelEntries &&& op == op
    else fieldPermission actorGroups modelEntries fe &&& op == op

/-- The `RecordRule` struct of the models package: a name (the overwrite key),
the `Global` scope flag, the group it is bound to when not global, the filter
condition (an opaque boolean-valued predicate over a candidate record), and
the permission mask naming the operations the rule applies to. -/
structure RecordRule (R : Type) where
  Name : String
  Global : Bool
  Group : String
  Condition : R → Bool
  Perms : Nat

/-- Modelled from the spec: `AddRecordRule(model, rule)` inserts or
overwrites by `rule.Name` in the model's ordered rule list: in place when the
name exists, at the end when it is new. -/
def AddRecordRule {R : Type} (rules : List (RecordRule R)) (rule : RecordRule R) :
    List (RecordRule R) :=
  if rules.any (fun q => q.Name == rule.Name) then
    rules.map (fun q => if q.Name == rule.Name then rule else q)
  else rules ++ [rule]

/-- Modelled from the spec: `RemoveRecordRule(model, name)` removes the rule
with the given name; a no-op when absent. -/
def RemoveRecordRule {R : Type} (rules : List (RecordRule R)) (name : String) :
    List (RecordRule R) :=
  rules.filter (fun q => !(q.Name == name))

/-- Modelled from the spec: the applicable global rules `G` for an operation:
all global rules on the model whose permission mask includes the operation. -/
def globalRules {R : Type} (rules : List (RecordRule R)) (op : Nat) :
    List (RecordRule R) :=
  rules.filter (fun q => q.Global && !(q.Perms &&& op == 0))

/-- Modelled from the spec: the applicable group rules `R` for an operation:
all non-global rules on the model whose permission mask includes the operation
and whose group lies in the actor's effective-group closure. -/
def groupRules {R : Type} (rules : List (RecordRule R))
    (actorGroups : List String) (op : Nat) : List (RecordRule R) :=
  rules.filter
    (fun q => !q.Global && !(q.Perms &&& op == 0) && actorGroups.contains q.Group)

/-- Modelled from the spec: `combinedPredicate(model, actorGroups, operation)`
over a candidate record: `(G empty OR all of G hold) AND (R empty OR any of R
holds)` — global rules conjunctive, group rules disjunctive. -/
def combinedPredicate {R : Type} (rules : List (RecordRule R))
    (actorGroups : List String) (op : Nat) : R → Bool :=
  fun r =>
    (globalRules rules op).all (fun q => q.Condition r) &&
      ((groupRules rules actorGroups op).isEmpty ||
        (groupRules rules actorGroups op).any (fun q => q.Condition r))

/-- Modelled from the spec: the record-visibility predicate the data layer
consults: record rules are never consulted for the `Create` operation (there
is no record yet during creation), so create decisions use the universal true
predicate; other operations use `combinedPredicate`. -/
def visibilityPredicate {R : Type} (rules : List (RecordRule R))
    (actorGroups : List String) (op : Nat) : R → Bool :=
  if op == security.Create then fun _ => true
  else combinedPredicate rules actorGroups op

/-- The shape of one error reported by a loaded package, as seen by
`getMissingDeclarations`: either a `types.Error` carrying its message (the
only kind the type assertion `err.(types.Error)` accepts) or an error of any
other dynamic type. -/
inductive GoError where
  | typesError (msg : String)
  | otherError
deriving DecidableEq

/-- Modelled from the spec: the module kinds of the external `generate`
package; `DEFS` is the constant `filterDefsModules` compares against, every
other kind is collapsed into `MODULES`. -/
inductive ModType where
  | MODULES
  | DEFS
deriving DecidableEq

/-- Modelled from the spec: the external `generate.ModuleInfo`: the package's
reported errors, its module type, and the value returned by its `String()`
method (an opaque name, kept as a field). -/
structure ModuleInfo where
  Errors : List GoError
  modType : ModType
  str : String

/-- The whitespace classifier of Go's `fmt` scanning routines (its `space`
rune table). -/
def goSpace (c : Char) : Bool :=
  (0x9 ≤ c.val && c.val ≤ 0xd) || c.val == 0x20 || c.val == 0x85 ||
    c.val == 0xa0 || c.val == 0x1680 || (0x2000 ≤ c.val && c.val ≤ 0x200a) ||
    c.val == 0x2028 || c.val == 0x2029 || c.val == 0x202f ||
    c.val == 0x205f || c.val == 0x3000

/-- Drop the leading run of whitespace. -/
def skipSpaces (cs : List Char) : List Char :=
  cs.dropWhile goSpace

/-- Match the characters of one literal format word against the front of the
input, returning the rest of the input on success; fails on a mismatching
character and on end of input inside the word. -/
def matchLiteralWord : List Char → List Char → Option (List Char)
  | cs, [] => some cs
  | [], _ :: _ => none
  | c :: cs, w :: ws => if c = w then matchLiteralWord cs ws else none

/-- Match one format-space followed by one literal word, per `fmt` scanning
in Scanf mode: a space in the format demands a whitespace character in the
input, but a newline there is an error (`newline in input does not match
format`); the following run of non-newline whitespace is then skipped — the
skip stops at a newline, which the word's first letter then fails to match —
and the word must match literally. -/
def matchSpaceThenWord (cs : List Char) (w : String) : Option (List Char) :=
  match cs with
  | [] => none
  | c :: rest =>
    if goSpace c && !(c == '\n') then
      matchLiteralWord
        (rest.dropWhile (fun d => goSpace d && !(d == '\n'))) w.data
    else none

/-- Match the literal tail `" not declared by package pool"` of the format
string, per `fmt.Sscanf`: each inter-word space matches a nonempty
newline-free whitespace run, the words match literally, and any input left
after the final word is ignored (`Sscanf` does not anchor at the end of the
input). -/
def matchTail (cs : List Char) : Bool :=
  (do
    let c1 ← matchSpaceThenWord cs "not"
    let c2 ← matchSpaceThenWord c1 "declared"
    let c3 ← matchSpaceThenWord c2 "by"
    let c4 ← matchSpaceThenWord c3 "package"
    let _ ← matchSpaceThenWord c4 "pool"
    pure ()).isSome

/-- The effect of `fmt.Sscanf(msg, "%s not declared by package pool",
&identName)` followed by the `n == 0 || e != nil` guard: the leading
whitespace skip of `%s` errors on a newline (`unexpected newline` in Scanf
mode; the carriage return of a carriage-return-newline pair is consumed as
space just before the newline errors), otherwise `%s` reads the maximal
nonempty whitespace-free token, the literal tail must then match, and on
success the token is the captured identifier. -/
def parseMissing (msg : String) : Option String :=
  let lead := msg.data.takeWhile goSpace
  if lead.any (fun c => c == '\n') then none
  else
    let cs := skipSpaces msg.data
    let tok := cs.takeWhile (fun c => !goSpace c)
    let rest := cs.dropWhile (fun c => !goSpace c)
    if tok.isEmpty then none
    else if matchTail rest then some (String.mk tok) else none

/-- Insertion into the result keeping each identifier at most once, the
set-semantics of the Go `missing map[string]bool`; the map's nondeterministic
iteration order is fixed here to first-insertion order, which the membership
and multiplicity statements below do not depend on. -/
def insertDistinct (acc : List String) (id : String) : List String :=
  if id ∈ acc then acc else acc ++ [id]

/-- The inner loop of `getMissingDeclarations` over one package's errors:
non-`types.Error` values are skipped by the failed type assertion, messages
rejected by the `Sscanf` guard are skipped, and accepted identifiers are
recorded once. -/
def collectErrors (acc : List String) (errs : List GoError) : List String :=
  errs.foldl
    (fun a err =>
      match err with
      | .typesError msg =>
        match parseMissing msg with
        | some id => insertDistinct a id
        | none => a
      | .otherError => a)
    acc

/-- `getMissingDeclarations` of `cmd/yep-generate/main.go`: scan all packages'
errors for identifiers not declared by package pool and return the distinct
names. -/
def getMissingDeclarations (packages : List ModuleInfo) : List String :=
  packages.foldl (fun a p => collectErrors a p.Errors) []

/-- The exact message form named by the claim, following the spec's words:
the message is precisely `"<identifier> not declared by package pool"` for a
nonempty, whitespace-free identifier. -/
def exactMissingForm (msg : String) : Bool :=
  let lit := (" not declared by package pool").data
  let cs := msg.data
  if cs.length ≤ lit.length then false
  else
    let id := cs.take (cs.length - lit.length)
    let tail := cs.drop (cs.length - lit.length)
    tail == lit && !id.isEmpty && id.all (fun c => !goSpace c)

/-- `filterDefsModules` of `cmd/yep-generate/main.go`: the `String()` names of
the modules whose `ModType` is `DEFS`, collected in input order. -/
def filterDefsModules (modules : List ModuleInfo) : List String :=
  modules.foldl
    (fun acc m => if m.modType == ModType.DEFS then acc ++ [m.str] else acc)
    []

/-! ## Helper lemmas -/

theorem scanEntries_eq_foldl (actorGroups : List String) (entries : List AclEntry)
    (res : Nat) :
    scanEntries actorGroups res entries = entries.foldl (applyEntry actorGroups) res := by
  induction entries generalizing res with
  | nil => rfl
  | cons e es ih => simp [scanEntries, List.foldl_cons, ih]

theorem lor_land_self (x p : Nat) : (x ||| p) &&& p = p := by
  apply Nat.eq_of_testBit_eq
  intro i
  simp only [Nat.testBit_and, Nat.testBit_or]
  cases x.testBit i <;> cases p.testBit i <;> rfl

theorem deny_clears (x p : Nat) (hp : p &&& security.All = p) :
    ((x ||| p) &&& (security.All ^^^ p)) &&& p = 0 := by
  apply Nat.eq_of_testBit_eq
  intro i
  simp only [Nat.testBit_and, Nat.testBit_or, Nat.testBit_xor, Nat.zero_testBit]
  cases hpt : p.testBit i with
  | false => simp
  | true =>
    have h15 : Nat.testBit security.All i = true := by
      have hc := congrArg (fun n => n.testBit i) hp
      simpa [Nat.testBit_and, hpt] using hc
    simp [hpt, h15]

/-! ## Claims about the Access Control Table -/

/-- C1: for every actor-group set and entry sequence, `effectivePermission`
is the deterministic left-fold of the entry replay over the list in insertion
order, starting from the empty permission set (or `All` for an administrator
with no entries); a deny appended after an allow for the same bits removes
them, a later allow re-adds them, and replaying the same sequence twice
yields the same result. -/
theorem effectivePermission_left_fold_replay (actorGroups : List String)
    (entries : List AclEntry) :
    effectivePermission actorGroups entries
        = entries.foldl (applyEntry actorGroups) (initPerm actorGroups entries)
      ∧ effectivePermission actorGroups entries
        = effectivePermission actorGroups entries
      ∧ ∀ g p, g ∈ actorGroups → p &&& security.All = p →
        effectivePermission actorGroups
            (DenyModelAccess (AllowModelAccess entries g p) g p) &&& p = 0
        ∧ effectivePermission actorGroups
            (AllowModelAccess (DenyModelAccess (AllowModelAccess entries g p) g p)
              g p) &&& p = p := by
  refine ⟨scanEntries_eq_foldl actorGroups entries _, rfl, ?_⟩
  intro g p hg hp
  constructor
  · have h0 : initPerm actorGroups
        (DenyModelAccess (AllowModelAccess entries g p) g p) = 0 := by
      simp [initPerm, DenyModelAccess, AllowModelAccess]
    rw [effectivePermission, scanEntries_eq_foldl, h0, DenyModelAccess,
      AllowModelAccess]
    simp only [List.foldl_append, List.foldl_cons, List.foldl_nil]
    simp only [applyEntry, if_pos hg]
    exact deny_clears _ p hp
  · have h0 : initPerm actorGroups
        (AllowModelAccess (DenyModelAccess (AllowModelAccess entries g p) g p)
          g p) = 0 := by
      simp [initPerm, AllowModelAccess, DenyModelAccess]
    rw [effectivePermission, scanEntries_eq_foldl, h0, AllowModelAccess,
      DenyModelAccess, AllowModelAccess]
    simp only [List.foldl_append, List.foldl_cons, List.foldl_nil]
    simp only [applyEntry, if_pos hg]
    exact lor_land_self _ p

/-- Witness for C1 at a concrete instance: for group `sales` and the `Read`
bit, allow-then-deny clears the bit and a further allow re-adds it. -/
theorem effectivePermission_left_fold_replay_inst :
    effectivePermission ["sales"]
        (DenyModelAccess (AllowModelAccess [] "sales" 2) "sales" 2) &&& 2 = 0
      ∧ effectivePermission ["sales"]
          (AllowModelAccess (DenyModelAccess (AllowModelAccess [] "sales" 2)
            "sales" 2) "sales" 2) &&& 2 = 2 :=
  (effectivePermission_left_fold_replay ["sales"] []).2.2 "sales" 2
    (by decide) (by decide)

/-- C2: a target with no entries at all yields `All` for any actor-group set
holding the administrator group and the empty permission for any other set;
as soon as any entry names the administrator group, the default no longer
applies and the entries alone determine the result from the empty set
upward. -/
theorem admin_default_no_entries (actorGroups : List String)
    (entries : List AclEntry) :
    (security.AdminGroupName ∈ actorGroups →
      effectivePermission actorGroups [] = security.All)
    ∧ (security.AdminGroupName ∉ actorGroups →
      effectivePermission actorGroups [] = 0)
    ∧ ((∃ e ∈ entries, e.group = security.AdminGroupName) →
      effectivePermission actorGroups entries
        = entries.foldl (applyEntry actorGroups) 0) := by
  refine ⟨?_, ?_, ?_⟩
  · intro h
    simp [effectivePermission, scanEntries, initPerm, h]
  · intro h
    simp [effectivePermission, scanEntries, initPerm, h]
  · rintro ⟨e, he, -⟩
    have hne : entries ≠ [] := by
      rintro rfl
      simp at he
    have hinit : initPerm actorGroups entries = 0 := by
      simp [initPerm, List.isEmpty_iff, hne]
    rw [effectivePermission, hinit, scanEntries_eq_foldl]

/-- Witness for C2 at concrete instances: the empty target list for an admin
actor and for a plain actor, and a target whose single entry names the
administrator group. -/
theorem admin_default_no_entries_inst :
    effectivePermission ["admin"] [] = security.All
    ∧ effectivePermission ["sales"] [] = 0
    ∧ effectivePermission ["sales"] [⟨"admin", 2, .allow⟩]
        = [(⟨"admin", 2, .allow⟩ : AclEntry)].foldl (applyEntry ["sales"]) 0 :=
  ⟨(admin_default_no_entries ["admin"] []).1 (by decide),
   (admin_default_no_entries ["sales"] []).2.1 (by decide),
   (admin_default_no_entries ["sales"] [⟨"admin", 2, .allow⟩]).2.2
     ⟨⟨"admin", 2, .allow⟩, by decide, rfl⟩⟩

/-! ## Claims about record rules and the facade -/

/-- C3: the combined record predicate holds on a candidate record exactly
when every applicable global rule accepts it (vacuously when there is none)
and, when any applicable group rule exists, at least one of them accepts it;
with no applicable rules at all the predicate is universally true. -/
theorem combinedPredicate_global_conj_group_disj {R : Type}
    (rules : List (RecordRule R)) (actorGroups : List String) (op : Nat)
    (r : R) :
    (combinedPredicate rules actorGroups op r = true ↔
      ((globalRules rules op = []
          ∨ ∀ q ∈ globalRules rules op, q.Condition r = true)
        ∧ (groupRules rules actorGroups op = []
          ∨ ∃ q ∈ groupRules rules actorGroups op, q.Condition r = true)))
    ∧ (globalRules rules op = [] → groupRules rules actorGroups op = [] →
      combinedPredicate rules actorGroups op r = true) := by
  constructor
  · simp only [combinedPredicate, Bool.and_eq_true, Bool.or_eq_true,
      List.all_eq_true, List.any_eq_true, List.isEmpty_iff]
    constructor
    · rintro ⟨h1, h2⟩
      exact ⟨Or.inr h1, h2⟩
    · rintro ⟨h1 | h1, h2⟩
      · refine ⟨?_, h2⟩
        rw [h1]
        intro q hq
        simp at hq
      · exact ⟨h1, h2⟩
  · intro h1 h2
    simp [combinedPredicate, h1, h2]

/-- Witness for C3: with no rules registered both rule sets are empty and the
predicate is universally true. -/
theorem combinedPredicate_global_conj_group_disj_inst :
    combinedPredicate ([] : List (RecordRule Nat)) [] security.Read 0 = true :=
  (combinedPredicate_global_conj_group_disj [] [] security.Read 0).2 rfl rfl

/-- C6: a record rule whose permission mask includes `Create` is inert for
create operations: registering it is accepted (the rule lands in the
registry) and the record-visibility decision for `Create` is the universal
true predicate, unchanged by the registration — record rules are never
consulted for `Create`. -/
theorem createRule_inert {R : Type} (rules : List (RecordRule R))
    (actorGroups : List String) (ru : RecordRule R) (r : R)
    (_hmask : ru.Perms &&& security.Create ≠ 0) :
    ru ∈ AddRecordRule rules ru
    ∧ visibilityPredicate rules actorGroups security.Create r = true
    ∧ visibilityPredicate (AddRecordRule rules ru) actorGroups
        security.Create r
      = visibilityPredicate rules actorGroups security.Create r := by
  refine ⟨?_, ?_, ?_⟩
  · unfold AddRecordRule
    by_cases h : rules.any (fun q => q.Name == ru.Name)
    · rw [if_pos h]
      obtain ⟨q, hq, hname⟩ := List.any_eq_true.mp h
      exact List.mem_map.mpr ⟨q, hq, by simp [hname]⟩
    · rw [if_neg h]
      simp
  · simp [visibilityPredicate]
  · simp [visibilityPredicate]

/-- Witness for C6 at a concrete instance: a create-masked rule over natural
number records. -/
theorem createRule_inert_inst :
    (⟨"x", true, "g", fun _ => false, 1⟩ : RecordRule Nat)
        ∈ AddRecordRule [] ⟨"x", true, "g", fun _ => false, 1⟩
    ∧ visibilityPredicate ([] : List (RecordRule Nat)) [] security.Create 0
        = true
    ∧ visibilityPredicate
          (AddRecordRule [] (⟨"x", true, "g", fun _ => false, 1⟩ : RecordRule Nat))
          [] security.Create 0
        = visibilityPredicate ([] : List (RecordRule Nat)) [] security.Create 0 :=
  createRule_inert [] [] ⟨"x", true, "g", fun _ => false, 1⟩ 0 (by decide)

/-- C7: `mayAccess` for the `Unlink` operation with a field argument equals
`mayAccess` without the field argument: field-level entries are never
consulted for unlink decisions. -/
theorem mayAccess_unlink_ignores_field (actorGroups : List String)
    (modelEntries fieldEntries : List AclEntry) :
    mayAccess actorGroups modelEntries (some fieldEntries) security.Unlink
      = mayAccess actorGroups modelEntries none security.Unlink := by
  simp [mayAccess]

/-- Counterexample to the universal form of C4: the field defaulting of group
`h` (mirroring its model `Write` grant) is lost once a field entry for the
unrelated group `g` on bit `Read` is added, so adding one field entry for one
group does affect the defaulting of other bits for other groups. -/
theorem fieldPermission_default_shift_cex :
    fieldPermission ["h"] [⟨"h", security.Write, .allow⟩] [] = security.Write
    ∧ fieldPermission ["h"] [⟨"h", security.Write, .allow⟩]
        (AllowFieldAccess [] "g" security.Read)
      ≠ fieldPermission ["h"] [⟨"h", security.Write, .allow⟩] [] := by
  constructor
  · decide
  · decide

/-- C4 (amended): a field with no field-specific entries mirrors its model's
permission intersected with `{Create, Read, Write}`; once any field-specific
entry exists, the field's entries alone — replayed from the empty set —
determine the result, independently of the model's entries. -/
theorem fieldPermission_field_entries_determine (actorGroups : List String)
    (modelEntries fieldEntries : List AclEntry) :
    (fieldEntries = [] →
      fieldPermission actorGroups modelEntries fieldEntries
        = effectivePermission actorGroups modelEntries &&& security.CRW)
    ∧ (fieldEntries ≠ [] →
      fieldPermission actorGroups modelEntries fieldEntries
        = effectivePermission actorGroups fieldEntries
      ∧ ∀ modelEntries2,
        fieldPermission actorGroups modelEntries2 fieldEntries
          = fieldPermission actorGroups modelEntries fieldEntries) := by
  constructor
  · rintro rfl
    simp [fieldPermission]
  · intro h
    have hne : fieldEntries.isEmpty = false := by
      simp [List.isEmpty_iff, h]
    constructor
    · simp [fieldPermission, hne]
    · intro modelEntries2
      simp [fieldPermission, hne]

/-- Witness for C4 (amended) at concrete instances: the defaulting branch and
the field-entry branch with its independence from the model entries. -/
theorem fieldPermission_field_entries_determine_inst :
    fieldPermission ["h"] [⟨"h", 4, .allow⟩] []
        = effectivePermission ["h"] [⟨"h", 4, .allow⟩] &&& security.CRW
    ∧ fieldPermission ["h"] [⟨"h", 4, .allow⟩] [⟨"g", 2, .allow⟩]
        = effectivePermission ["h"] [⟨"g", 2, .allow⟩]
    ∧ fieldPermission ["h"] [] [⟨"g", 2, .allow⟩]
        = fieldPermission ["h"] [⟨"h", 4, .allow⟩] [⟨"g", 2, .allow⟩] :=
  ⟨(fieldPermission_field_entries_determine ["h"] [⟨"h", 4, .allow⟩] []).1 rfl,
   ((fieldPermission_field_entries_determine ["h"] [⟨"h", 4, .allow⟩]
      [⟨"g", 2, .allow⟩]).2 (by decide)).1,
   ((fieldPermission_field_entries_determine ["h"] [⟨"h", 4, .allow⟩]
      [⟨"g", 2, .allow⟩]).2 (by decide)).2 []⟩

/-! ## Claims about the Group Registry -/

/-- C5: registering a name that already exists fails with the duplicate-group
error, and registering a fresh group one of whose parent chains reaches the
new group fails with the cycle error; in both cases the error propagates and
the graph is left unchanged. -/
theorem register_duplicate_cycle_fail (g : GroupGraph) (name : String)
    (parents : List String) :
    (g.any (fun q => q.1 = name) = true →
      registerGroup g name parents = .error .duplicateGroup
      ∧ registerGroupStep g name parents = g)
    ∧ (g.any (fun q => q.1 = name) = false →
      parents.any (fun p => reaches g p name) = true →
      registerGroup g name parents = .error .cycleGroup
      ∧ registerGroupStep g name parents = g) := by
  constructor
  · intro h
    constructor
    · simp [registerGroup, h]
    · simp [registerGroupStep, registerGroup, h]
  · intro h1 h2
    constructor
    · simp [registerGroup, h1, h2]
    · simp [registerGroupStep, registerGroup, h1, h2]

/-- Witness for C5 at concrete instances: re-registering `a` duplicates, and
registering `c` with parent `b` cycles because `b` already lists `c` as a
parent; both leave the graph as it was. -/
theorem register_duplicate_cycle_fail_inst :
    (registerGroup [("a", [])] "a" [] = .error .duplicateGroup
      ∧ registerGroupStep [("a", [])] "a" [] = [("a", [])])
    ∧ (registerGroup [("b", ["c"])] "c" ["b"] = .error .cycleGroup
      ∧ registerGroupStep [("b", ["c"])] "c" ["b"] = [("b", ["c"])]) :=
  ⟨(register_duplicate_cycle_fail [("a", [])] "a" []).1 (by decide),
   (register_duplicate_cycle_fail [("b", ["c"])] "c" ["b"]).2
     (by decide) (by decide)⟩

/-- Counterexample to the universal form of C8: when the registry already
holds a rule named `x`, adding a new rule under the same name overwrites it,
and removing `x` afterwards deletes both — the combined predicate does not
revert to its value before the addition. -/
theorem addRemove_overwrite_cex :
    combinedPredicate
        (RemoveRecordRule
          (AddRecordRule
            [({ Name := "x", Global := true, Group := "",
                Condition := fun _ => false, Perms := 2 } : RecordRule Nat)]
            { Name := "x", Global := true, Group := "",
              Condition := fun _ => true, Perms := 2 })
          "x") [] security.Read 0 = true
    ∧ combinedPredicate
        [({ Name := "x", Global := true, Group := "",
            Condition := fun _ => false, Perms := 2 } : RecordRule Nat)]
        [] security.Read 0 = false :=
  ⟨rfl, rfl⟩

/-- C8 (amended): when no rule with the new rule's name is registered yet,
adding it and then removing that name restores the registry, hence the
combined predicate it computed before the addition, for every actor-group set
and operation; removing an absent name is a no-op leaving the registry
unchanged. -/
theorem addRemove_restores {R : Type} (rules : List (RecordRule R))
    (ru : RecordRule R) :
    ((∀ q ∈ rules, q.Name ≠ ru.Name) →
      RemoveRecordRule (AddRecordRule rules ru) ru.Name = rules
      ∧ ∀ actorGroups op r,
        combinedPredicate (RemoveRecordRule (AddRecordRule rules ru) ru.Name)
            actorGroups op r
          = combinedPredicate rules actorGroups op r)
    ∧ ∀ name, (∀ q ∈ rules, q.Name ≠ name) →
      RemoveRecordRule rules name = rules := by
  have hrm : ∀ (l : List (RecordRule R)) (name : String),
      (∀ q ∈ l, q.Name ≠ name) → RemoveRecordRule l name = l := by
    intro l name h
    unfold RemoveRecordRule
    apply List.filter_eq_self.mpr
    intro q hq
    simp [h q hq]
  constructor
  · intro h
    have hadd : AddRecordRule rules ru = rules ++ [ru] := by
      unfold AddRecordRule
      rw [if_neg]
      intro hc
      obtain ⟨q, hq, hname⟩ := List.any_eq_true.mp hc
      exact h q hq (by simpa using hname)
    have hres : RemoveRecordRule (AddRecordRule rules ru) ru.Name = rules := by
      rw [hadd]
      unfold RemoveRecordRule
      rw [List.filter_append]
      have h1 : rules.filter (fun q => !(q.Name == ru.Name)) = rules := by
        apply List.filter_eq_self.mpr
        intro q hq
        simp [h q hq]
      have h2 : [ru].filter (fun q => !(q.Name == ru.Name)) = [] := by
        simp
      rw [h1, h2, List.append_nil]
    exact ⟨hres, fun actorGroups op r => by rw [hres]⟩
  · intro name h
    exact hrm rules name h

/-- Witness for C8 (amended) at a concrete instance: adding a fresh rule `x`
next to an existing rule `y` and removing `x` restores the registry and the
predicate; removing the absent name `z` changes nothing. -/
theorem addRemove_restores_inst :
    RemoveRecordRule
        (AddRecordRule [(⟨"y", true, "", fun _ => false, 2⟩ : RecordRule Nat)]
          ⟨"x", true, "", fun _ => true, 2⟩) "x"
      = [(⟨"y", true, "", fun _ => false, 2⟩ : RecordRule Nat)]
    ∧ combinedPredicate
        (RemoveRecordRule
          (AddRecordRule [(⟨"y", true, "", fun _ => false, 2⟩ : RecordRule Nat)]
            ⟨"x", true, "", fun _ => true, 2⟩) "x") [] security.Read 0
      = combinedPredicate [(⟨"y", true, "", fun _ => false, 2⟩ : RecordRule Nat)]
          [] security.Read 0
    ∧ RemoveRecordRule [(⟨"y", true, "", fun _ => false, 2⟩ : RecordRule Nat)] "z"
      = [(⟨"y", true, "", fun _ => false, 2⟩ : RecordRule Nat)] := by
  have hfresh : ∀ q ∈ [(⟨"y", true, "", fun _ => false, 2⟩ : RecordRule Nat)],
      RecordRule.Name q ≠ "x" := by
    intro q hq
    rcases List.mem_singleton.mp hq with rfl
    decide
  have hfreshz : ∀ q ∈ [(⟨"y", true, "", fun _ => false, 2⟩ : RecordRule Nat)],
      RecordRule.Name q ≠ "z" := by
    intro q hq
    rcases List.mem_singleton.mp hq with rfl
    decide
  exact ⟨((addRemove_restores _ ⟨"x", true, "", fun _ => true, 2⟩).1 hfresh).1,
    ((addRemove_restores _ ⟨"x", true, "", fun _ => true, 2⟩).1 hfresh).2
      [] security.Read 0,
    (addRemove_restores [(⟨"y", true, "", fun _ => false, 2⟩ : RecordRule Nat)]
      ⟨"x", true, "", fun _ => true, 2⟩).2 "z" hfreshz⟩

/-! ## Claims about the yep-generate helpers -/

theorem mem_insertDistinct (acc : List String) (x y : String) :
    y ∈ insertDistinct acc x ↔ y ∈ acc ∨ y = x := by
  unfold insertDistinct
  by_cases h : x ∈ acc
  · rw [if_pos h]
    constructor
    · exact Or.inl
    · rintro (hy | rfl)
      · exact hy
      · exact h
  · rw [if_neg h]
    simp [List.mem_append]

theorem nodup_insertDistinct (acc : List String) (x : String)
    (h : acc.Nodup) : (insertDistinct acc x).Nodup := by
  unfold insertDistinct
  by_cases hx : x ∈ acc
  · rwa [if_pos hx]
  · rw [if_neg hx]
    simp [List.nodup_append, h, hx]

theorem mem_collectErrors (errs : List GoError) (acc : List String)
    (x : String) :
    x ∈ collectErrors acc errs ↔
      x ∈ acc ∨ ∃ msg, GoError.typesError msg ∈ errs
        ∧ parseMissing msg = some x := by
  induction errs generalizing acc with
  | nil => simp [collectErrors]
  | cons e es ih =>
    cases e with
    | typesError msg =>
      cases hpm : parseMissing msg with
      | none =>
        have hstep : collectErrors acc (GoError.typesError msg :: es)
            = collectErrors acc es := by
          simp [collectErrors, hpm]
        rw [hstep, ih]
        constructor
        · rintro (h | ⟨m, hm, hp⟩)
          · exact Or.inl h
          · exact Or.inr ⟨m, List.mem_cons_of_mem _ hm, hp⟩
        · rintro (h | ⟨m, hm, hp⟩)
          · exact Or.inl h
          · rcases List.mem_cons.mp hm with heq | hmem
            · injection heq with h2
              rw [h2, hpm] at hp
              cases hp
            · exact Or.inr ⟨m, hmem, hp⟩
      | some id =>
        have hstep : collectErrors acc (GoError.typesError msg :: es)
            = collectErrors (insertDistinct acc id) es := by
          simp [collectErrors, hpm]
        rw [hstep, ih, mem_insertDistinct]
        constructor
        · rintro ((h | rfl) | ⟨m, hm, hp⟩)
          · exact Or.inl h
          · exact Or.inr ⟨msg, List.mem_cons_self _ _, hpm⟩
          · exact Or.inr ⟨m, List.mem_cons_of_mem _ hm, hp⟩
        · rintro (h | ⟨m, hm, hp⟩)
          · exact Or.inl (Or.inl h)
          · rcases List.mem_cons.mp hm with heq | hmem
            · injection heq with h2
              rw [h2, hpm] at hp
              injection hp with h3
              exact Or.inl (Or.inr h3.symm)
            · exact Or.inr ⟨m, hmem, hp⟩
    | otherError =>
      have hstep : collectErrors acc (GoError.otherError :: es)
          = collectErrors acc es := by
        simp [collectErrors]
      rw [hstep, ih]
      constructor
      · rintro (h | ⟨m, hm, hp⟩)
        · exact Or.inl h
        · exact Or.inr ⟨m, List.mem_cons_of_mem _ hm, hp⟩
      · rintro (h | ⟨m, hm, hp⟩)
        · exact Or.inl h
        · rcases List.mem_cons.mp hm with heq | hmem
          · cases heq
          · exact Or.inr ⟨m, hmem, hp⟩

theorem nodup_collectErrors (errs : List GoError) (acc : List String)
    (h : acc.Nodup) : (collectErrors acc errs).Nodup := by
  induction errs generalizing acc with
  | nil => simpa [collectErrors]
  | cons e es ih =>
    cases e with
    | typesError msg =>
      cases hpm : parseMissing msg with
      | none =>
        have hstep : collectErrors acc (GoError.typesError msg :: es)
            = collectErrors acc es := by
          simp [collectErrors, hpm]
        rw [hstep]
        exact ih acc h
      | some id =>
        have hstep : collectErrors acc (GoError.typesError msg :: es)
            = collectErrors (insertDistinct acc id) es := by
          simp [collectErrors, hpm]
        rw [hstep]
        exact ih _ (nodup_insertDistinct acc id h)
    | otherError =>
      have hstep : collectErrors acc (GoError.otherError :: es)
          = collectErrors acc es := by
        simp [collectErrors]
      rw [hstep]
      exact ih acc h

theorem mem_foldl_collect (packages : List ModuleInfo) (acc : List String)
    (x : String) :
    x ∈ packages.foldl (fun a p => collectErrors a p.Errors) acc ↔
      x ∈ acc ∨ ∃ p ∈ packages, ∃ msg, GoError.typesError msg ∈ p.Errors
        ∧ parseMissing msg = some x := by
  induction packages generalizing acc with
  | nil => simp
  | cons p ps ih =>
    rw [List.foldl_cons, ih, mem_collectErrors]
    constructor
    · rintro ((h | ⟨m, hm, hp⟩) | ⟨q, hq, m, hm, hp⟩)
      · exact Or.inl h
      · exact Or.inr ⟨p, List.mem_cons_self _ _, m, hm, hp⟩
      · exact Or.inr ⟨q, List.mem_cons_of_mem _ hq, m, hm, hp⟩
    · rintro (h | ⟨q, hq, m, hm, hp⟩)
      · exact Or.inl (Or.inl h)
      · rcases List.mem_cons.mp hq with rfl | hmem
        · exact Or.inl (Or.inr ⟨m, hm, hp⟩)
        · exact Or.inr ⟨q, hmem, m, hm, hp⟩

theorem nodup_foldl_collect (packages : List ModuleInfo) (acc : List String)
    (h : acc.Nodup) :
    (packages.foldl (fun a p => collectErrors a p.Errors) acc).Nodup := by
  induction packages generalizing acc with
  | nil => simpa
  | cons p ps ih =>
    rw [List.foldl_cons]
    exact ih _ (nodup_collectErrors p.Errors acc h)

/-- Counterexample to C9 as stated: `fmt.Sscanf` does not anchor the format
at the end of the message, so the message
`"Foo not declared by package pool."` — which is not of the exact form
`"<identifier> not declared by package pool"` — still contributes `Foo`. -/
theorem getMissingDeclarations_form_cex :
    getMissingDeclarations
        [{ Errors := [GoError.typesError "Foo not declared by package pool."],
           modType := ModType.MODULES, str := "m" }] = ["Foo"]
    ∧ exactMissingForm "Foo not declared by package pool." = false :=
  ⟨rfl, rfl⟩

/-- C9 (amended): `getMissingDeclarations` returns each identifier at most
once, and an identifier appears exactly when some package reports a
`types.Error` whose message the scan `"%s not declared by package pool"`
accepts: a nonempty whitespace-free token, whitespace-separated literal
words, and possibly arbitrary trailing text; errors of other dynamic types
or with rejected messages contribute nothing. -/
theorem getMissingDeclarations_spec (packages : List ModuleInfo) (x : String) :
    (x ∈ getMissingDeclarations packages ↔
      ∃ p ∈ packages, ∃ msg, GoError.typesError msg ∈ p.Errors
        ∧ parseMissing msg = some x)
    ∧ (getMissingDeclarations packages).Nodup := by
  constructor
  · rw [getMissingDeclarations, mem_foldl_collect]
    simp
  · exact nodup_foldl_collect packages [] List.nodup_nil

theorem foldl_filterDefs (modules : List ModuleInfo) (acc : List String) :
    modules.foldl
        (fun a m => if m.modType == ModType.DEFS then a ++ [m.str] else a) acc
      = acc ++ (modules.filter (fun m => m.modType == ModType.DEFS)).map
          (fun m => m.str) := by
  induction modules generalizing acc with
  | nil => simp
  | cons m ms ih =>
    rw [List.foldl_cons, List.filter_cons]
    cases hm : (m.modType == ModType.DEFS) with
    | false => simpa using ih acc
    | true => simpa [List.append_assoc] using ih (acc ++ [m.str])

/-- C10: `filterDefsModules` returns exactly the `String()` names of the
modules whose type is `DEFS`, in input order and nothing else; in particular
it is empty when no module has type `DEFS`. -/
theorem filterDefsModules_spec (modules : List ModuleInfo) :
    filterDefsModules modules
        = (modules.filter (fun m => m.modType == ModType.DEFS)).map
            (fun m => m.str)
    ∧ ((∀ m ∈ modules, m.modType ≠ ModType.DEFS) →
      filterDefsModules modules = []) := by
  have h1 := foldl_filterDefs modules []
  constructor
  · simpa [filterDefsModules] using h1
  · intro h
    have h2 : modules.filter (fun m => m.modType == ModType.DEFS) = [] := by
      apply List.filter_eq_nil_iff.mpr
      intro m hm
      simp [h m hm]
    rw [filterDefsModules, h1, h2]
    simp

/-- Witness for C10 at a concrete instance: a module list without any `DEFS`
module maps to the empty name list. -/
theorem filterDefsModules_spec_inst :
    filterDefsModules [{ Errors := [], modType := ModType.MODULES, str := "m" }]
      = [] :=
  (filterDefsModules_spec
    [{ Errors := [], modType := ModType.MODULES, str := "m" }]).2
    (by
      intro m hm
      rcases List.mem_singleton.mp hm with rfl
      decide)
